import Mathlib

/-!
# Verification of the keypad-mapper HID codec and API

Shallow embedding of the TypeScript sources of `keypad-mapper`
(`src/utils.ts`, `src/types.ts`, `src/api.ts`) into Lean 4, together with
proofs about the pack/unpack codec, the knob-id arithmetic and the
request/response exchange layer.

Conventions of the embedding:
* TS `number` values holding bytes are modelled as `Nat`; the signed-byte
  helpers work on `Int`.
* Node `Buffer` values are modelled as `List Nat`; the `readUInt8` /
  `readInt8` / `readUInt16LE` accessors return `Option` — `none` models the
  `RangeError` Node throws on an out-of-bounds read.
* Functions that `throw` are modelled with `Option` / `Except`.
* The HID device is modelled by an explicit state `HidState` recording the
  requests written so far and the queue of pending responses.
-/

namespace KeypadMapper

/-! ## utils.ts -/

/-- `toInt8` from `src/utils.ts`: clamps an integer into the signed-byte
range and represents it as an unsigned byte `0..255`. -/
def toInt8 (n : Int) : Int :=
  if 0 ≤ n then
    if n ≤ 0x7F then n else 0x7F
  else
    let d := 0x100 + n
    if 0x80 ≤ d ∧ d ≤ 0xFF then d else 0x80

/-- `fromInt8` from `src/utils.ts`: `writeUInt8 (n & 0xFF)` then `readInt8`.
In JS, `n & 0xFF` of an integer is its non-negative residue mod 256, and
`readInt8` reinterprets values `≥ 128` as negative. -/
def fromInt8 (n : Int) : Int :=
  let b := n % 256
  if 0x80 ≤ b then b - 0x100 else b

/-- `splitUInt16LE` from `src/utils.ts`: `[v & 0xFF, (v >> 8) & 0xFF]`. -/
def splitUInt16LE (v : Nat) : List Nat :=
  [v % 256, v / 256 % 256]

/-! ## types.ts: actions and keypad info -/

/-- `KeyAction` from `src/types.ts`. -/
structure KeyAction where
  modKey : Nat
  keyCode : Nat
  deriving Repr, DecidableEq

/-- `ConsumerAction` from `src/types.ts`. -/
structure ConsumerAction where
  id : Nat
  deriving Repr, DecidableEq

/-- `MouseAction` from `src/types.ts`. -/
structure MouseAction where
  modKey : Nat
  button : Nat
  x : Nat
  y : Nat
  wheel : Nat
  deriving Repr, DecidableEq

/-- `emptyMouseAction` from `src/types.ts`. -/
def emptyMouseAction : MouseAction :=
  { modKey := 0, button := 0, x := 0, y := 0, wheel := 0 }

/-- `Wheel(wheel, modKey = 0)` from `src/types.ts`: a mouse action whose
`wheel` field is `toInt8 wheel` (stored as an unsigned byte). -/
def Wheel (wheel : Int) (modKey : Nat := 0) : MouseAction :=
  { emptyMouseAction with modKey := modKey, wheel := (toInt8 wheel).toNat }

/-- `mouse.WheelUp` from `src/types.ts`. -/
def mouseWheelUp : MouseAction := Wheel 1

/-- `KeypadInfo` from `src/types.ts`. -/
structure KeypadInfo where
  keys : Nat
  knobs : Nat
  deriving Repr, DecidableEq

/-- `getKeyCount` from `src/types.ts`: total key slots including knobs. -/
def getKeyCount (info : KeypadInfo) : Nat :=
  info.keys + 3 * info.knobs

/-- `KnobActions` from `src/types.ts` as the association list
`{Left: 0, Click: 1, Right: 2}` (JS object entries in declaration order). -/
def KnobActions : List (String × Nat) :=
  [("Left", 0), ("Click", 1), ("Right", 2)]

/-- `findKnobActionName` from `src/types.ts`: first entry whose value
matches. -/
def findKnobActionName (action : Nat) : Option String :=
  (KnobActions.find? (fun p => p.2 = action)).map (·.1)

/-- `findKnobAction` from `src/types.ts`: property lookup by name. -/
def findKnobAction (action : String) : Option Nat :=
  (KnobActions.find? (fun p => p.1 = action)).map (·.2)

/-- `getKeyIdForKnob` from `src/types.ts`. -/
def getKeyIdForKnob (info : KeypadInfo) (knobId : Nat) (knobAction : Nat) : Nat :=
  1 + info.keys + 3 * (knobId - 1) + knobAction

/-- `KnobIdAndAction` from `src/types.ts`. -/
structure KnobIdAndAction where
  knobId : Nat
  knobAction : String
  deriving Repr, DecidableEq

/-- `getKnobByKeyId` from `src/types.ts`. The source uses the non-null
assertion `findKnobActionName(actionIndex)!`; the `none` branch is
unreachable because `actionIndex = knob % 3 < 3`. -/
def getKnobByKeyId (info : KeypadInfo) (keyId : Nat) : Option KnobIdAndAction :=
  if keyId ≤ info.keys then
    none
  else
    let knob := keyId - 1 - info.keys
    let actionIndex := knob % 3
    let knobId := 1 + (knob - actionIndex) / 3
    match findKnobActionName actionIndex with
    | some name => some { knobId := knobId, knobAction := name }
    | none => none

/-! ## Buffer reads -/

/-- Node `buffer.readUInt8(k)`: the byte at `k`, `RangeError` out of range. -/
def readUInt8 (b : List Nat) (k : Nat) : Option Nat :=
  b[k]?

/-- Node `buffer.readInt8(k)`: the byte at `k` reinterpreted as signed. -/
def readInt8 (b : List Nat) (k : Nat) : Option Int :=
  (b[k]?).map (fun (v : Nat) => if 0x80 ≤ v then (v : Int) - 0x100 else (v : Int))

/-- Node `buffer.readUInt16LE(k)`: little-endian 16-bit read. -/
def readUInt16LE (b : List Nat) (k : Nat) : Option Nat :=
  match b[k]?, b[k + 1]? with
  | some lo, some hi => some (lo + 256 * hi)
  | _, _ => none

/-! ## api.ts: pack/unpack -/

/-- `packKeyActrions` (sic) from `src/api.ts`: `[count, modKey₁, keyCode₁,
…]`; throws (`none`) when the count is outside `[0, 18]` (a list length is
never negative, so only the upper bound can fail). -/
def packKeyActrions (keys : List KeyAction) : Option (List Nat) :=
  let len := keys.length
  if len > 18 then none
  else some (len :: keys.flatMap (fun k => [k.modKey, k.keyCode]))

/-- The pair-reading loop of `unpackKeyActions`: read `n` `(modKey,
keyCode)` pairs starting at byte offset `start`. -/
def readKeyPairs (b : List Nat) (start : Nat) : Nat → Option (List KeyAction)
  | 0 => some []
  | n + 1 => do
    let modKey ← readUInt8 b start
    let keyCode ← readUInt8 b (start + 1)
    let rest ← readKeyPairs b (start + 2) n
    pure ({ modKey := modKey, keyCode := keyCode } :: rest)

/-- `unpackKeyActions` from `src/api.ts`: the count byte at `0x0A` is read
*signed* (`readInt8`); the loop `for (i = 0; i < len; …)` runs
`max len 0` times, so a negative count yields the empty list. -/
def unpackKeyActions (b : List Nat) : Option (List KeyAction) := do
  let len ← readInt8 b 0x0A
  readKeyPairs b 0x0B len.toNat

/-- `packConsumerAction` from `src/api.ts`. -/
def packConsumerAction (c : ConsumerAction) : List Nat :=
  0x01 :: splitUInt16LE c.id

/-- `unpackConsumerAction` from `src/api.ts`. -/
def unpackConsumerAction (b : List Nat) : Option ConsumerAction :=
  (readUInt16LE b 0x0B).map (fun id => { id := id })

/-- `packMouseAction` from `src/api.ts`. -/
def packMouseAction (a : MouseAction) : List Nat :=
  [0x04, a.modKey, a.button, a.x, a.y, a.wheel]

/-- `unpackMouseAction` from `src/api.ts`. -/
def unpackMouseAction (b : List Nat) : Option MouseAction := do
  let modKey ← readUInt8 b 0x0B
  let button ← readUInt8 b 0x0C
  let x ← readUInt8 b 0x0D
  let y ← readUInt8 b 0x0E
  let wheel ← readUInt8 b 0x0F
  pure { modKey := modKey, button := button, x := x, y := y, wheel := wheel }

/-- The `KeyMap` union from `src/api.ts`: `KeyMapKeys` (type `0x01`),
`KeyMapConsumer` (`0x02`), `KeyMapMouse` (`0x03`) and `KeyMapUnknown`
(any other type byte, carrying the raw buffer). -/
inductive KeyMap where
  | keys (keys : List KeyAction)
  | consumer (consumer : ConsumerAction)
  | mouse (mouse : MouseAction)
  | unknown (type : Nat) (buffer : List Nat)
  deriving Repr, DecidableEq

/-- The `type` discriminator field of a `KeyMap` (`KeyMapTypes`). -/
def KeyMap.type : KeyMap → Nat
  | .keys _ => 0x01
  | .consumer _ => 0x02
  | .mouse _ => 0x03
  | .unknown t _ => t

/-- `packKeyMap` from `src/api.ts`: dispatches on the type, throws
(`none`) on the unknown variant, and prepends the six-byte prefix
`[type, 0, 0, 0, 0, 0]`. -/
def packKeyMap : KeyMap → Option (List Nat)
  | .keys ks => (packKeyActrions ks).map (fun d => 0x01 :: [0, 0, 0, 0, 0] ++ d)
  | .consumer c => some (0x02 :: [0, 0, 0, 0, 0] ++ packConsumerAction c)
  | .mouse m => some (0x03 :: [0, 0, 0, 0, 0] ++ packMouseAction m)
  | .unknown _ _ => none

/-- `KeyMapWithId` from `src/api.ts`. -/
structure KeyMapWithId where
  layerId : Nat
  keyId : Nat
  keyMap : KeyMap
  deriving Repr, DecidableEq

/-- `unpackKeyMapWithId` from `src/api.ts`: `keyId` at offset 2, `layerId`
at offset 3, type byte at offset 4; unknown types fall through to the raw
variant carrying the whole buffer. -/
def unpackKeyMapWithId (b : List Nat) : Option KeyMapWithId := do
  let keyId ← readUInt8 b 2
  let layerId ← readUInt8 b 3
  let type ← readUInt8 b 4
  let keyMap ← (match type with
    | 0x01 => (unpackKeyActions b).map KeyMap.keys
    | 0x02 => (unpackConsumerAction b).map KeyMap.consumer
    | 0x03 => (unpackMouseAction b).map KeyMap.mouse
    | t => some (KeyMap.unknown t b) : Option KeyMap)
  pure { layerId := layerId, keyId := keyId, keyMap := keyMap }

/-! ## api.ts: raw I/O over an explicit HID state -/

/-- `REQUEST_SIZE` from `src/api.ts`. -/
def REQUEST_SIZE : Nat := 65

/-- The pure core of `sendRequest`: copy the request and push `0` until the
copy is `REQUEST_SIZE` bytes long (a request already that long or longer is
left unchanged — the loop body never runs). -/
def padRequest (request : List Nat) : List Nat :=
  request ++ List.replicate (REQUEST_SIZE - request.length) 0

/-- The HID device as seen by the api layer: the list of requests written
so far and the queue of responses the device will deliver. -/
structure HidState where
  writes : List (List Nat)
  reads : List (List Nat)
  deriving Repr, DecidableEq

/-- `sendRequest` from `src/api.ts`: `hid.write` of the padded request. -/
def sendRequest (s : HidState) (request : List Nat) : HidState :=
  { s with writes := s.writes ++ [padRequest request] }

/-- `recvResponse` from `src/api.ts`: `hid.read(250)`, throwing
`"No response received."` on an empty buffer.  An exhausted queue is
modelled as the device returning nothing, hence the same error. -/
def recvResponse (s : HidState) : Except String (List Nat × HidState) :=
  match s.reads with
  | [] => .error "No response received."
  | b :: rest =>
    if b.length = 0 then .error "No response received."
    else .ok (b, { s with reads := rest })

/-- `ReadKeypadKeyMapsRequest` from `src/api.ts`. -/
structure ReadKeypadKeyMapsRequest where
  keys : Nat
  knobs : Nat
  layerId : Nat
  deriving Repr, DecidableEq

/-- `packReadKeypadKeyMaps` from `src/api.ts`. -/
def packReadKeypadKeyMaps (p : ReadKeypadKeyMapsRequest) : List Nat :=
  [0x03, 0xfa, p.keys, p.knobs, p.layerId]

/-- JS sparse-array assignment `result[i] = v` on a `KeyMapList`: indices
below the length overwrite, indices beyond extend the array with holes
(`none`), and a negative index (possible when a response carries
`keyId = 0`) stores a non-index property, leaving the array untouched. -/
def arraySet (l : List (Option KeyMap)) (i : Int) (v : KeyMap) : List (Option KeyMap) :=
  if i < 0 then l
  else if i.toNat < l.length then l.set i.toNat (some v)
  else l ++ List.replicate (i.toNat - l.length) none ++ [some v]

/-- The receive loop of `readKeypadKeyMaps`: `n` iterations of
`recvResponse` / `unpackKeyMapWithId` / layer check / store at
`keyId - 1`.  A buffer too short for its advertised payload makes the
Node `Buffer` reads throw, modelled as `"out of range"`. -/
def readKeypadKeyMapsLoop (layerId : Nat) :
    Nat → List (Option KeyMap) → HidState → Except String (List (Option KeyMap) × HidState)
  | 0, acc, s => .ok (acc, s)
  | n + 1, acc, s =>
    match recvResponse s with
    | .error e => .error e
    | .ok (buffer, s') =>
      match unpackKeyMapWithId buffer with
      | none => .error "out of range"
      | some kwi =>
        if kwi.layerId ≠ layerId then .error "Invalid layer response"
        else readKeypadKeyMapsLoop layerId n
          (arraySet acc ((kwi.keyId : Int) - 1) kwi.keyMap) s'

/-- `readKeypadKeyMaps` from `src/api.ts`: one request, then
`getKeyCount` responses. -/
def readKeypadKeyMaps (s : HidState) (p : ReadKeypadKeyMapsRequest) :
    Except String (List (Option KeyMap) × HidState) :=
  readKeypadKeyMapsLoop p.layerId (getKeyCount { keys := p.keys, knobs := p.knobs }) []
    (sendRequest s (packReadKeypadKeyMaps p))

/-- The layer loop of `readKeypadKeyMapTable`: `n` remaining layers,
the next one having id `i + 1`. -/
def readKeypadKeyMapTableLoop (info : KeypadInfo) :
    Nat → Nat → List (List (Option KeyMap)) → HidState →
    Except String (List (List (Option KeyMap)) × HidState)
  | 0, _, acc, s => .ok (acc, s)
  | n + 1, i, acc, s =>
    match readKeypadKeyMaps s { keys := info.keys, knobs := info.knobs, layerId := i + 1 } with
    | .error e => .error e
    | .ok (list, s') => readKeypadKeyMapTableLoop info n (i + 1) (acc ++ [list]) s'

/-- `readKeypadKeyMapTable` from `src/api.ts`: layers `1 .. layers`. -/
def readKeypadKeyMapTable (s : HidState) (info : KeypadInfo) (layers : Nat) :
    Except String (List (List (Option KeyMap)) × HidState) :=
  readKeypadKeyMapTableLoop info layers 0 [] s

/-- The `keyId` a response buffer carries, `0` when the buffer does not
parse (used only under a parseability hypothesis). -/
def keyIdOf (b : List Nat) : Nat :=
  match unpackKeyMapWithId b with
  | some kwi => kwi.keyId
  | none => 0

/-- The `KeyMap` a response buffer carries. -/
def keyMapOf (b : List Nat) : Option KeyMap :=
  (unpackKeyMapWithId b).map (·.keyMap)

/-- A device report whose header-stripped part is a well-formed encoding
of a supported `KeyMap` type, as produced by `packKeyMap`: type byte at
offset 4, the five prefix filler bytes zero, the payload shaped as the
matching pack function emits it (and, as for every Node `Buffer`, every
byte below 256). -/
def WellFormedEncoding (b : List Nat) : Prop :=
  (∀ x ∈ b, x < 256) ∧
  b[5]? = some 0 ∧ b[6]? = some 0 ∧ b[7]? = some 0 ∧ b[8]? = some 0 ∧ b[9]? = some 0 ∧
  ((b[4]? = some 0x01 ∧ ∃ c, b[10]? = some c ∧ c ≤ 18 ∧ b.length = 11 + 2 * c) ∨
   (b[4]? = some 0x02 ∧ b[10]? = some 0x01 ∧ b.length = 13) ∨
   (b[4]? = some 0x03 ∧ b[10]? = some 0x04 ∧ b.length = 16))

/-- A `KeyMap` value of a known type whose payload `packKeyMap` can encode
into bytes: at most 18 key actions, and every stored field a byte
(consumer ids are 16-bit). -/
def ValidKeyMap : KeyMap → Prop
  | .keys ks => ks.length ≤ 18 ∧ ∀ k ∈ ks, k.modKey < 256 ∧ k.keyCode < 256
  | .consumer c => c.id < 0x10000
  | .mouse m => m.modKey < 256 ∧ m.button < 256 ∧ m.x < 256 ∧ m.y < 256 ∧ m.wheel < 256
  | .unknown _ _ => False

/-- The two-layer demo exchange of the spec scenario (`keys = 1`,
`knobs = 0`, two layers): one response per layer, each carrying its
layer id at offset 3. -/
def demoResponses : List (List Nat) :=
  [[0x03, 0xfa, 0x01, 0x01, 0x01, 0, 0, 0, 0, 0, 0x01, 0x01, 0x12],
   [0x03, 0xfa, 0x01, 0x02, 0x01, 0, 0, 0, 0, 0, 0x01, 0x02, 0x34]]

/-- The table the demo exchange decodes to. -/
def demoTable : List (List (Option KeyMap)) :=
  [[some (KeyMap.keys [{ modKey := 0x01, keyCode := 0x12 }])],
   [some (KeyMap.keys [{ modKey := 0x02, keyCode := 0x34 }])]]

/-- A full 65-byte report whose count byte (offset `0x0A`) is 27 and whose
payload bytes are all zero: 27 exceeds the pack-side limit of 18, yet its
last pair sits at offsets 63–64, still inside the report. -/
def report65Count27 : List Nat :=
  List.replicate 10 0 ++ 27 :: List.replicate 54 0

/-! ## Theorems -/

/-- C6: for every integer `n` in `[-128,127]`, `fromInt8 (toInt8 n) = n`;
for `n > 127`, `toInt8 n = 127`; for `n < -128`, `toInt8 n = 128` —
out-of-range inputs clamp, never wrap, and clamped values do not
round-trip. -/
theorem toInt8_fromInt8_spec (n : Int) :
    (-128 ≤ n → n ≤ 127 → fromInt8 (toInt8 n) = n) ∧
    (127 < n → toInt8 n = 127) ∧
    (n < -128 → toInt8 n = 128) := by
  refine ⟨fun h1 h2 => ?_, fun h => ?_, fun h => ?_⟩ <;>
    simp only [toInt8, fromInt8] <;> split_ifs <;> omega

theorem toInt8_fromInt8_spec_witness :
    fromInt8 (toInt8 (-5)) = -5 ∧ toInt8 200 = 127 ∧ toInt8 (-200) = 128 :=
  ⟨(toInt8_fromInt8_spec (-5)).1 (by decide) (by decide),
   (toInt8_fromInt8_spec 200).2.1 (by decide),
   (toInt8_fromInt8_spec (-200)).2.2 (by decide)⟩

/-- C4: `packKeyActrions keys` returns `[count, modKey₁, keyCode₁, …]`
whenever the number of keys is in `[0, 18]`, and throws (returns `none`,
producing no output) whenever it is outside that range (a list length is
never negative, so that means `> 18`). -/
theorem packKeyActrions_spec (keys : List KeyAction) :
    (keys.length ≤ 18 →
      packKeyActrions keys =
        some (keys.length :: keys.flatMap (fun k => [k.modKey, k.keyCode]))) ∧
    (18 < keys.length → packKeyActrions keys = none) := by
  constructor <;> intro h <;> simp only [packKeyActrions]
  · rw [if_neg (by omega)]
  · rw [if_pos (by omega)]

theorem packKeyActrions_spec_witness :
    packKeyActrions [{ modKey := 1, keyCode := 2 }, { modKey := 0, keyCode := 0x12 }] =
      some [2, 1, 2, 0, 0x12] ∧
    packKeyActrions (List.replicate 19 { modKey := 0, keyCode := 0 }) = none :=
  ⟨(packKeyActrions_spec _).1 (by decide), (packKeyActrions_spec _).2 (by decide)⟩

/-- C7 (counterexample): the claim that the wheel-up mouse action packs to
the four-byte payload `[0x04, 0x00, 0x00, 0x01]` after the prefix
`[0x03, 0, 0, 0, 0, 0]` is false — the mouse payload is six bytes. -/
theorem packKeyMap_wheelUp_counterexample :
    packKeyMap (KeyMap.mouse mouseWheelUp) ≠
      some ([0x03, 0, 0, 0, 0, 0] ++ [0x04, 0x00, 0x00, 0x01]) := by
  decide

/-- C7 (amended): the wheel-up mouse action (modKey=0, button=0, x=0, y=0,
wheel=1) packs to the six-byte payload `[0x04, 0x00, 0x00, 0x00, 0x00,
0x01]` prefixed by `[0x03, 0, 0, 0, 0, 0]`. -/
theorem packKeyMap_wheelUp :
    packKeyMap (KeyMap.mouse mouseWheelUp) =
      some ([0x03, 0, 0, 0, 0, 0] ++ [0x04, 0x00, 0x00, 0x00, 0x00, 0x01]) := by
  decide

/-- C8 (counterexample): it is not true that every request written by
`sendRequest` is exactly `REQUEST_SIZE = 65` bytes — a 66-byte payload is
written unchanged, 66 bytes long. -/
theorem sendRequest_counterexample :
    (sendRequest { writes := [], reads := [] } (List.replicate 66 1)).writes =
      [List.replicate 66 1] ∧
    (List.replicate 66 1).length ≠ REQUEST_SIZE := by
  constructor
  · show [padRequest (List.replicate 66 1)] = _
    simp [padRequest, REQUEST_SIZE]
  · decide

/-- C8 (amended): `sendRequest` writes exactly one request, the padded
payload; every payload of at most 65 bytes is written as exactly
`REQUEST_SIZE = 65` bytes, the payload followed by zero padding on the
right; longer payloads are written unchanged. -/
theorem sendRequest_spec (s : HidState) (request : List Nat) :
    (sendRequest s request).writes = s.writes ++ [padRequest request] ∧
    (request.length ≤ REQUEST_SIZE →
      padRequest request = request ++ List.replicate (REQUEST_SIZE - request.length) 0 ∧
      (padRequest request).length = REQUEST_SIZE) ∧
    (REQUEST_SIZE ≤ request.length → padRequest request = request) := by
  refine ⟨rfl, fun h => ⟨rfl, ?_⟩, fun h => ?_⟩
  · simp only [padRequest, List.length_append, List.length_replicate]
    omega
  · simp [padRequest, Nat.sub_eq_zero_of_le h]

theorem sendRequest_spec_witness :
    (sendRequest { writes := [], reads := [] } [1, 2, 3]).writes =
      [] ++ [padRequest [1, 2, 3]] ∧
    padRequest [1, 2, 3] = [1, 2, 3] ++ List.replicate (REQUEST_SIZE - 3) 0 ∧
    (padRequest [1, 2, 3]).length = REQUEST_SIZE :=
  ⟨(sendRequest_spec { writes := [], reads := [] } [1, 2, 3]).1,
   (sendRequest_spec { writes := [], reads := [] } [1, 2, 3]).2.1 (by decide)⟩

/-- C5: unpacking never errors on an unknown type byte — any buffer whose
offsets 2..4 are readable and whose type byte is none of `0x01`, `0x02`,
`0x03` unpacks to the raw `unknown` variant carrying the whole buffer
together with `keyId` (offset 2) and `layerId` (offset 3); conversely
`packKeyMap` throws (`none`) on the unknown variant, whatever its type
byte. -/
theorem unpack_unknown_graceful_pack_throws :
    (∀ (b : List Nat) (keyId layerId t : Nat),
      readUInt8 b 2 = some keyId → readUInt8 b 3 = some layerId →
      readUInt8 b 4 = some t → t ≠ 0x01 → t ≠ 0x02 → t ≠ 0x03 →
      unpackKeyMapWithId b =
        some { layerId := layerId, keyId := keyId, keyMap := .unknown t b }) ∧
    (∀ (t : Nat) (buf : List Nat), packKeyMap (KeyMap.unknown t buf) = none) := by
  constructor
  · intro b keyId layerId t h2 h3 h4 ht1 ht2 ht3
    unfold unpackKeyMapWithId
    rw [h2, h3, h4]
    rcases t with _ | _ | _ | _ | n
    · rfl
    · exact absurd rfl ht1
    · exact absurd rfl ht2
    · exact absurd rfl ht3
    · rfl
  · intro t buf
    rfl

theorem unpack_unknown_graceful_pack_throws_witness :
    unpackKeyMapWithId [0x03, 0xfa, 0x07, 0x02, 0x09, 0, 0, 1, 2, 3] =
      some { layerId := 0x02, keyId := 0x07,
             keyMap := .unknown 0x09 [0x03, 0xfa, 0x07, 0x02, 0x09, 0, 0, 1, 2, 3] } ∧
    packKeyMap (KeyMap.unknown 0x09 [0x03, 0xfa, 0x07, 0x02, 0x09, 0, 0, 1, 2, 3]) = none :=
  ⟨unpack_unknown_graceful_pack_throws.1 _ _ _ _ rfl rfl rfl
      (by decide) (by decide) (by decide),
   unpack_unknown_graceful_pack_throws.2 _ _⟩

/-- C2: for every `KeypadInfo`, every `knobId ≥ 1` and every knob action
index in `{0 = Left, 1 = Click, 2 = Right}`, `getKeyIdForKnob` computes
`1 + keys + 3*(knobId-1) + knobAction`, and `getKnobByKeyId` applied to
that key id recovers exactly the pair: the same `knobId` and the name of
the same action (`findKnobAction` maps the returned name back to the
index), i.e. `getKnobByKeyId` inverts `getKeyIdForKnob` on this domain. -/
theorem getKnobByKeyId_getKeyIdForKnob (info : KeypadInfo) (knobId a : Nat)
    (h1 : 1 ≤ knobId) (h3 : a < 3) :
    getKeyIdForKnob info knobId a = 1 + info.keys + 3 * (knobId - 1) + a ∧
    ∃ name, getKnobByKeyId info (getKeyIdForKnob info knobId a) =
        some { knobId := knobId, knobAction := name } ∧
      findKnobAction name = some a := by
  refine ⟨rfl, ?_⟩
  have hkey : getKeyIdForKnob info knobId a = 1 + info.keys + 3 * (knobId - 1) + a := rfl
  have hnotle : ¬ getKeyIdForKnob info knobId a ≤ info.keys := by rw [hkey]; omega
  have hknob : getKeyIdForKnob info knobId a - 1 - info.keys = 3 * (knobId - 1) + a := by
    rw [hkey]; omega
  have hmod : (3 * (knobId - 1) + a) % 3 = a := by omega
  obtain ⟨name, hname, hback⟩ :
      ∃ name, findKnobActionName a = some name ∧ findKnobAction name = some a := by
    interval_cases a <;> exact ⟨_, rfl, rfl⟩
  refine ⟨name, ?_, hback⟩
  simp only [getKnobByKeyId, if_neg hnotle, hknob, hmod, hname]
  have harith : 1 + (3 * (knobId - 1) + a - a) / 3 = knobId := by omega
  rw [harith]

theorem getKnobByKeyId_getKeyIdForKnob_witness :
    getKeyIdForKnob { keys := 6, knobs := 3 } 2 1 = 1 + 6 + 3 * (2 - 1) + 1 ∧
    ∃ name, getKnobByKeyId { keys := 6, knobs := 3 }
        (getKeyIdForKnob { keys := 6, knobs := 3 } 2 1) =
        some { knobId := 2, knobAction := name } ∧
      findKnobAction name = some 1 :=
  getKnobByKeyId_getKeyIdForKnob { keys := 6, knobs := 3 } 2 1 (by decide) (by decide)

/-! ### Helper lemmas about `readKeyPairs` -/

theorem readKeyPairs_some (b : List Nat) :
    ∀ (n start : Nat), start + 2 * n ≤ b.length →
    ∃ l, readKeyPairs b start n = some l ∧ l.length = n ∧
      ∀ i < n, l[i]? = some { modKey := b.getD (start + 2 * i) 0,
                              keyCode := b.getD (start + 2 * i + 1) 0 } := by
  intro n
  induction n with
  | zero =>
    intro start _
    exact ⟨[], rfl, rfl, fun i hi => absurd hi (by omega)⟩
  | succ m ih =>
    intro start h
    have h1 : start < b.length := by omega
    have h2 : start + 1 < b.length := by omega
    obtain ⟨l, hl, hlen, hget⟩ := ih (start + 2) (by omega)
    have e1 : b.getD start 0 = b[start] := by
      rw [List.getD_eq_getElem?_getD, List.getElem?_eq_getElem h1]; rfl
    have e2 : b.getD (start + 1) 0 = b[start + 1] := by
      rw [List.getD_eq_getElem?_getD, List.getElem?_eq_getElem h2]; rfl
    refine ⟨{ modKey := b.getD start 0, keyCode := b.getD (start + 1) 0 } :: l, ?_,
      by simp [hlen], ?_⟩
    · simp only [readKeyPairs, readUInt8, List.getElem?_eq_getElem h1,
        List.getElem?_eq_getElem h2, hl, e1, e2, Option.bind_some]
      rfl
    · intro i hi
      cases i with
      | zero => simp
      | succ j =>
        have ha : start + 2 * (j + 1) = start + 2 + 2 * j := by omega
        rw [ha]
        simpa using hget j (by omega)

theorem readKeyPairs_none (b : List Nat) :
    ∀ (n start : Nat), 1 ≤ n → b.length < start + 2 * n → readKeyPairs b start n = none := by
  intro n
  induction n with
  | zero => intro start h _; omega
  | succ m ih =>
    intro start _ h
    by_cases h1 : start < b.length
    · by_cases h2 : start + 1 < b.length
      · have hm : 1 ≤ m := by omega
        simp only [readKeyPairs, readUInt8, List.getElem?_eq_getElem h1,
          List.getElem?_eq_getElem h2, ih (start + 2) hm (by omega), Option.bind_some]
        rfl
      · simp only [readKeyPairs, readUInt8, List.getElem?_eq_getElem h1,
          List.getElem?_eq_none (show b.length ≤ start + 1 by omega), Option.bind_some]
        rfl
    · simp only [readKeyPairs, readUInt8,
        List.getElem?_eq_none (show b.length ≤ start by omega)]
      rfl

/-- C10 (counterexample): the claim that counts beyond 26 index past the
end of a 65-byte report is false — a 65-byte report with count byte 27
(beyond both 18 and 26) unpacks successfully, its last pair read from
offsets 63–64. -/
theorem unpackKeyActions_count27_counterexample :
    report65Count27.length = 65 ∧
    report65Count27[0x0A]? = some 27 ∧ 26 < 27 ∧
    unpackKeyActions report65Count27 =
      some (List.replicate 27 { modKey := 0, keyCode := 0 }) := by
  refine ⟨by decide, by decide, by decide, ?_⟩
  decide

/-- C10 (amended): `unpackKeyActions` reads the count byte at `0x0A` as a
signed 8-bit integer and applies no upper-bound check: a count byte in
`[0x80, 0xFF]` yields the empty list (the count is negative); a count byte
in `[1, 127]` makes it read exactly that many `(modKey, keyCode)` pairs
from offset `0x0B` onward — the 18-entry limit of the pack side is never
enforced — and counts beyond 27 read past the end of a 65-byte report
(count 27 still fits: its last pair occupies offsets 63–64). -/
theorem unpackKeyActions_signed_count_spec :
    (∀ (b : List Nat) (c : Nat), b[0x0A]? = some c → 0x80 ≤ c → c ≤ 0xFF →
      unpackKeyActions b = some []) ∧
    (∀ (b : List Nat) (c : Nat), b[0x0A]? = some c → 1 ≤ c → c ≤ 127 →
      0x0B + 2 * c ≤ b.length →
      ∃ l, unpackKeyActions b = some l ∧ l.length = c ∧
        ∀ i < c, l[i]? = some { modKey := b.getD (0x0B + 2 * i) 0,
                                keyCode := b.getD (0x0B + 2 * i + 1) 0 }) ∧
    (∀ (b : List Nat) (c : Nat), b.length = 65 → b[0x0A]? = some c →
      27 < c → c ≤ 127 → unpackKeyActions b = none) := by
  refine ⟨fun b c hc h1 h2 => ?_, fun b c hc h1 h2 h3 => ?_, fun b c hlen hc h1 h2 => ?_⟩
  · simp only [unpackKeyActions, readInt8, hc, Option.map_some, Option.map_some', Option.bind_eq_bind, Option.some_bind, Option.bind_some,
      if_pos h1]
    have : ((c : Int) - 0x100).toNat = 0 := by omega
    rw [this]
    rfl
  · simp only [unpackKeyActions, readInt8, hc, Option.map_some, Option.map_some', Option.bind_eq_bind, Option.some_bind, Option.bind_some,
      if_neg (show ¬ 0x80 ≤ c by omega)]
    have : ((c : Nat) : Int).toNat = c := by omega
    rw [this]
    exact readKeyPairs_some b c 0x0B h3
  · simp only [unpackKeyActions, readInt8, hc, Option.map_some, Option.map_some', Option.bind_eq_bind, Option.some_bind, Option.bind_some,
      if_neg (show ¬ 0x80 ≤ c by omega)]
    have : ((c : Nat) : Int).toNat = c := by omega
    rw [this]
    exact readKeyPairs_none b c 0x0B (by omega) (by omega)

theorem unpackKeyActions_signed_count_spec_witness :
    unpackKeyActions [0, 0, 0, 0, 0, 0, 0, 0, 0, 0, 0xFE, 1, 2] = some [] ∧
    (∃ l, unpackKeyActions [0, 0, 0, 0, 0, 0, 0, 0, 0, 0, 2, 1, 2, 3, 4] = some l ∧
      l.length = 2 ∧
      ∀ i < 2, l[i]? = some
        { modKey := List.getD [0, 0, 0, 0, 0, 0, 0, 0, 0, 0, 2, 1, 2, 3, 4] (0x0B + 2 * i) 0,
          keyCode := List.getD [0, 0, 0, 0, 0, 0, 0, 0, 0, 0, 2, 1, 2, 3, 4] (0x0B + 2 * i + 1) 0 }) ∧
    unpackKeyActions (List.replicate 10 0 ++ 28 :: List.replicate 54 0) = none :=
  ⟨unpackKeyActions_signed_count_spec.1 _ 0xFE (by decide) (by decide) (by decide),
   unpackKeyActions_signed_count_spec.2.1 _ 2 (by decide) (by decide) (by decide) (by decide),
   unpackKeyActions_signed_count_spec.2.2 _ 28 (by decide) (by decide) (by decide) (by decide)⟩

/-! ### Helper lemmas about `unpackKeyMapWithId` and the pack functions -/

theorem unpackKeyMapWithId_keys (b : List Nat) (k2 k3 : Nat) (l : List KeyAction)
    (h2 : b[2]? = some k2) (h3 : b[3]? = some k3) (h4 : b[4]? = some 0x01)
    (hka : unpackKeyActions b = some l) :
    unpackKeyMapWithId b = some { layerId := k3, keyId := k2, keyMap := .keys l } := by
  unfold unpackKeyMapWithId
  simp only [readUInt8, h2, h3, h4, Option.bind_eq_bind, Option.some_bind]
  rw [hka]
  rfl

theorem unpackKeyMapWithId_consumer (b : List Nat) (k2 k3 : Nat) (c : ConsumerAction)
    (h2 : b[2]? = some k2) (h3 : b[3]? = some k3) (h4 : b[4]? = some 0x02)
    (hca : unpackConsumerAction b = some c) :
    unpackKeyMapWithId b = some { layerId := k3, keyId := k2, keyMap := .consumer c } := by
  unfold unpackKeyMapWithId
  simp only [readUInt8, h2, h3, h4, Option.bind_eq_bind, Option.some_bind]
  rw [hca]
  rfl

theorem unpackKeyMapWithId_mouse (b : List Nat) (k2 k3 : Nat) (m : MouseAction)
    (h2 : b[2]? = some k2) (h3 : b[3]? = some k3) (h4 : b[4]? = some 0x03)
    (hma : unpackMouseAction b = some m) :
    unpackKeyMapWithId b = some { layerId := k3, keyId := k2, keyMap := .mouse m } := by
  unfold unpackKeyMapWithId
  simp only [readUInt8, h2, h3, h4, Option.bind_eq_bind, Option.some_bind]
  rw [hma]
  rfl

/-- The key pairs decoded from a buffer of exactly the right length
flatten back to the byte suffix they came from. -/
theorem readKeyPairs_flatMap (b : List Nat) :
    ∀ (n start : Nat) (l : List KeyAction), readKeyPairs b start n = some l →
    b.length = start + 2 * n →
    l.flatMap (fun k => [k.modKey, k.keyCode]) = b.drop start := by
  intro n
  induction n with
  | zero =>
    intro start l h hlen
    obtain rfl : ([] : List KeyAction) = l := by
      simpa [readKeyPairs] using h
    simp [List.drop_eq_nil_of_le (by omega : b.length ≤ start)]
  | succ m ih =>
    intro start l h hlen
    have h1 : start < b.length := by omega
    have h2 : start + 1 < b.length := by omega
    simp only [readKeyPairs, readUInt8, List.getElem?_eq_getElem h1,
      List.getElem?_eq_getElem h2, Option.bind_eq_bind, Option.some_bind] at h
    cases hre : readKeyPairs b (start + 2) m with
    | none => rw [hre] at h; exact absurd h (by simp)
    | some rest =>
      rw [hre] at h
      obtain rfl : { modKey := b[start], keyCode := b[start + 1] } :: rest = l := by
        simpa using h
      have hrest := ih (start + 2) rest hre (by omega)
      simp only [List.flatMap_cons, hrest]
      rw [List.drop_eq_getElem_cons h1, List.drop_eq_getElem_cons h2]
      rfl

/-- Reading back exactly the pairs that a key-action list flattens to
recovers the list. -/
theorem readKeyPairs_append (b : List Nat) :
    ∀ (ks : List KeyAction) (start : Nat),
    b.drop start = ks.flatMap (fun k => [k.modKey, k.keyCode]) →
    readKeyPairs b start ks.length = some ks := by
  intro ks
  induction ks with
  | nil => intro start _; rfl
  | cons k ks ih =>
    intro start hd
    have e0 : b[start]? = some k.modKey := by
      have : (b.drop start)[0]? = b[start + 0]? := List.getElem?_drop b start 0
      rw [hd] at this
      simpa using this.symm
    have e1 : b[start + 1]? = some k.keyCode := by
      have : (b.drop start)[1]? = b[start + 1]? := List.getElem?_drop b start 1
      rw [hd] at this
      simpa using this.symm
    have e2 : b.drop (start + 2) = ks.flatMap (fun k => [k.modKey, k.keyCode]) := by
      have : (b.drop start).drop 2 = b.drop (start + 2) := by rw [List.drop_drop]
      rw [hd] at this
      simpa using this.symm
    simp only [List.length_cons, readKeyPairs, readUInt8, e0, e1, ih (start + 2) e2,
      Option.bind_eq_bind, Option.some_bind]
    rfl

/-- Unpacking a buffer shaped `pre ++ count :: pairs` (ten bytes of
prefix, then the packed key actions) recovers the key-action list. -/
theorem unpackKeyActions_packed (pre : List Nat) (ks : List KeyAction)
    (hpre : pre.length = 10) (h18 : ks.length ≤ 18) :
    unpackKeyActions (pre ++ ks.length :: ks.flatMap (fun k => [k.modKey, k.keyCode])) =
      some ks := by
  have h10 : (pre ++ ks.length :: ks.flatMap (fun k => [k.modKey, k.keyCode]))[10]? =
      some ks.length := by
    rw [List.getElem?_append_right (by omega), hpre]
    simp
  have hdrop : (pre ++ ks.length :: ks.flatMap (fun k => [k.modKey, k.keyCode])).drop 11 =
      ks.flatMap (fun k => [k.modKey, k.keyCode]) := by
    have : (pre ++ ks.length :: ks.flatMap (fun k => [k.modKey, k.keyCode])).drop
        (pre.length + 1) = (ks.length :: ks.flatMap (fun k => [k.modKey, k.keyCode])).drop 1 := by
      rw [List.drop_append]
    rw [hpre] at this
    simpa using this
  simp only [unpackKeyActions, readInt8, h10, Option.map_some', Option.bind_eq_bind,
    Option.some_bind, if_neg (show ¬ 0x80 ≤ ks.length by omega)]
  have htc : ((ks.length : Nat) : Int).toNat = ks.length := by omega
  rw [htc]
  exact readKeyPairs_append _ ks 0x0B hdrop

/-- Direction one of the round trip: a well-formed device buffer unpacks,
and re-packing the unpacked `KeyMap` reproduces the header-stripped
byte sequence `b.drop 4`. -/
theorem wellFormed_unpack_pack (b : List Nat) (h : WellFormedEncoding b) :
    ∃ r, unpackKeyMapWithId b = some r ∧ packKeyMap r.keyMap = some (b.drop 4) := by
  obtain ⟨hbytes, h5, h6, h7, h8, h9, hcase⟩ := h
  obtain ⟨p5, e5⟩ := List.getElem?_eq_some.mp h5
  obtain ⟨p6, e6⟩ := List.getElem?_eq_some.mp h6
  obtain ⟨p7, e7⟩ := List.getElem?_eq_some.mp h7
  obtain ⟨p8, e8⟩ := List.getElem?_eq_some.mp h8
  obtain ⟨p9, e9⟩ := List.getElem?_eq_some.mp h9
  rcases hcase with ⟨h4, c, h10, hc18, hlen⟩ | ⟨h4, h10, hlen⟩ | ⟨h4, h10, hlen⟩ <;>
    obtain ⟨p4, e4⟩ := List.getElem?_eq_some.mp h4 <;>
    obtain ⟨p10, e10⟩ := List.getElem?_eq_some.mp h10 <;>
    obtain ⟨k2, h2⟩ : ∃ v, b[2]? = some v := ⟨_, List.getElem?_eq_getElem (by omega)⟩ <;>
    obtain ⟨k3, h3⟩ : ∃ v, b[3]? = some v := ⟨_, List.getElem?_eq_getElem (by omega)⟩
  · -- keys, type byte 0x01
    obtain ⟨l, hl, hllen, -⟩ := readKeyPairs_some b c 0x0B (by omega)
    have hunp : unpackKeyActions b = some l := by
      simp only [unpackKeyActions, readInt8, h10, Option.map_some', Option.bind_eq_bind,
        Option.some_bind, if_neg (show ¬ 0x80 ≤ c by omega)]
      have htc : ((c : Nat) : Int).toNat = c := by omega
      rw [htc]
      exact hl
    refine ⟨_, unpackKeyMapWithId_keys b k2 k3 l h2 h3 h4 hunp, ?_⟩
    have hflat := readKeyPairs_flatMap b c 0x0B l hl (by omega)
    simp only [packKeyMap, packKeyActrions, hllen, if_neg (show ¬ c > 18 by omega),
      Option.map_some']
    rw [List.drop_eq_getElem_cons p4, List.drop_eq_getElem_cons p5,
      List.drop_eq_getElem_cons p6, List.drop_eq_getElem_cons p7,
      List.drop_eq_getElem_cons p8, List.drop_eq_getElem_cons p9,
      List.drop_eq_getElem_cons p10, e4, e5, e6, e7, e8, e9, e10, ← hflat]
    rfl
  · -- consumer, type byte 0x02
    obtain ⟨lo, h11⟩ : ∃ v, b[11]? = some v := ⟨_, List.getElem?_eq_getElem (by omega)⟩
    obtain ⟨hi, h12⟩ : ∃ v, b[12]? = some v := ⟨_, List.getElem?_eq_getElem (by omega)⟩
    obtain ⟨p11, e11⟩ := List.getElem?_eq_some.mp h11
    obtain ⟨p12, e12⟩ := List.getElem?_eq_some.mp h12
    have hlo : lo < 256 := by
      have := hbytes b[11] (List.getElem_mem p11)
      omega
    have hhi : hi < 256 := by
      have := hbytes b[12] (List.getElem_mem p12)
      omega
    have hca : unpackConsumerAction b = some { id := lo + 256 * hi } := by
      simp only [unpackConsumerAction, readUInt16LE, h11]
      rw [show (11 : Nat) + 1 = 12 from rfl, h12]
      rfl
    refine ⟨_, unpackKeyMapWithId_consumer b k2 k3 _ h2 h3 h4 hca, ?_⟩
    simp only [packKeyMap, packConsumerAction, splitUInt16LE]
    have m1 : (lo + 256 * hi) % 256 = lo := by omega
    have m2 : (lo + 256 * hi) / 256 % 256 = hi := by omega
    rw [m1, m2, List.drop_eq_getElem_cons p4, List.drop_eq_getElem_cons p5,
      List.drop_eq_getElem_cons p6, List.drop_eq_getElem_cons p7,
      List.drop_eq_getElem_cons p8, List.drop_eq_getElem_cons p9,
      List.drop_eq_getElem_cons p10, List.drop_eq_getElem_cons p11,
      List.drop_eq_getElem_cons p12,
      List.drop_eq_nil_of_le (show b.length ≤ 13 by omega),
      e4, e5, e6, e7, e8, e9, e10, e11, e12]
    rfl
  · -- mouse, type byte 0x03
    obtain ⟨v11, h11⟩ : ∃ v, b[11]? = some v := ⟨_, List.getElem?_eq_getElem (by omega)⟩
    obtain ⟨v12, h12⟩ : ∃ v, b[12]? = some v := ⟨_, List.getElem?_eq_getElem (by omega)⟩
    obtain ⟨v13, h13⟩ : ∃ v, b[13]? = some v := ⟨_, List.getElem?_eq_getElem (by omega)⟩
    obtain ⟨v14, h14⟩ : ∃ v, b[14]? = some v := ⟨_, List.getElem?_eq_getElem (by omega)⟩
    obtain ⟨v15, h15⟩ : ∃ v, b[15]? = some v := ⟨_, List.getElem?_eq_getElem (by omega)⟩
    obtain ⟨p11, e11⟩ := List.getElem?_eq_some.mp h11
    obtain ⟨p12, e12⟩ := List.getElem?_eq_some.mp h12
    obtain ⟨p13, e13⟩ := List.getElem?_eq_some.mp h13
    obtain ⟨p14, e14⟩ := List.getElem?_eq_some.mp h14
    obtain ⟨p15, e15⟩ := List.getElem?_eq_some.mp h15
    have hma : unpackMouseAction b =
        some { modKey := v11, button := v12, x := v13, y := v14, wheel := v15 } := by
      simp only [unpackMouseAction, readUInt8, h11, h12, h13, h14, h15,
        Option.bind_eq_bind, Option.some_bind]
      rfl
    refine ⟨_, unpackKeyMapWithId_mouse b k2 k3 _ h2 h3 h4 hma, ?_⟩
    simp only [packKeyMap, packMouseAction]
    rw [List.drop_eq_getElem_cons p4, List.drop_eq_getElem_cons p5,
      List.drop_eq_getElem_cons p6, List.drop_eq_getElem_cons p7,
      List.drop_eq_getElem_cons p8, List.drop_eq_getElem_cons p9,
      List.drop_eq_getElem_cons p10, List.drop_eq_getElem_cons p11,
      List.drop_eq_getElem_cons p12, List.drop_eq_getElem_cons p13,
      List.drop_eq_getElem_cons p14, List.drop_eq_getElem_cons p15,
      List.drop_eq_nil_of_le (show b.length ≤ 16 by omega),
      e4, e5, e6, e7, e8, e9, e10, e11, e12, e13, e14, e15]
    rfl

/-- Direction two of the round trip: packing a valid `KeyMap` of a known
type and unpacking it behind a four-byte header recovers the `KeyMap`
together with the header's `keyId` and `layerId`. -/
theorem pack_unpack_valid (m : KeyMap) (h0 h1 keyId layerId : Nat) (hv : ValidKeyMap m) :
    ∃ d, packKeyMap m = some d ∧
      unpackKeyMapWithId ([h0, h1, keyId, layerId] ++ d) =
        some { layerId := layerId, keyId := keyId, keyMap := m } := by
  cases m with
  | keys ks =>
    obtain ⟨h18, -⟩ := hv
    refine ⟨0x01 :: [0, 0, 0, 0, 0] ++
      ks.length :: ks.flatMap (fun k => [k.modKey, k.keyCode]), ?_, ?_⟩
    · simp only [packKeyMap, packKeyActrions, if_neg (show ¬ ks.length > 18 by omega),
        Option.map_some']
    · refine unpackKeyMapWithId_keys _ keyId layerId ks rfl rfl rfl ?_
      exact unpackKeyActions_packed
        [h0, h1, keyId, layerId, 0x01, 0, 0, 0, 0, 0] ks rfl h18
  | consumer c =>
    refine ⟨_, rfl, ?_⟩
    refine unpackKeyMapWithId_consumer _ keyId layerId c rfl rfl rfl ?_
    have hrd : unpackConsumerAction
        ([h0, h1, keyId, layerId] ++ ([0x02, 0, 0, 0, 0, 0] ++ packConsumerAction c)) =
        some { id := c.id % 256 + 256 * (c.id / 256 % 256) } := rfl
    rw [hrd]
    have hid : c.id % 256 + 256 * (c.id / 256 % 256) = c.id := by
      have : c.id < 0x10000 := hv
      omega
    rw [hid]
  | mouse mo =>
    exact ⟨_, rfl, unpackKeyMapWithId_mouse _ keyId layerId mo rfl rfl rfl rfl⟩
  | unknown t buf => exact hv.elim

/-- C1: round-trip contract of the codec.  One direction: every device
buffer whose type byte (offset 4) is a supported type and whose payload is
well-formed for that type unpacks, and `packKeyMap` of the unpacked
`keyMap` equals the header-stripped byte sequence `b.drop 4`.  Converse:
for every valid `KeyMap` of a known type, packing and then unpacking
behind a four-byte header recovers the `KeyMap` (with the header's
`keyId` and `layerId`). -/
theorem packKeyMap_unpackKeyMapWithId_roundtrip :
    (∀ b : List Nat, WellFormedEncoding b →
      ∃ r, unpackKeyMapWithId b = some r ∧ packKeyMap r.keyMap = some (b.drop 4)) ∧
    (∀ (m : KeyMap) (h0 h1 keyId layerId : Nat), ValidKeyMap m →
      ∃ d, packKeyMap m = some d ∧
        unpackKeyMapWithId ([h0, h1, keyId, layerId] ++ d) =
          some { layerId := layerId, keyId := keyId, keyMap := m }) :=
  ⟨wellFormed_unpack_pack, pack_unpack_valid⟩

theorem packKeyMap_unpackKeyMapWithId_roundtrip_witness :
    (∃ r, unpackKeyMapWithId [0x03, 0xfa, 0x0f, 0x01, 0x01, 0, 0, 0, 0, 0, 0x01, 0x00, 0x12] =
        some r ∧
      packKeyMap r.keyMap =
        some ([0x03, 0xfa, 0x0f, 0x01, 0x01, 0, 0, 0, 0, 0, 0x01, 0x00, 0x12].drop 4)) ∧
    (∃ d, packKeyMap (.consumer { id := 0x0192 }) = some d ∧
      unpackKeyMapWithId ([0x03, 0xfa, 0x02, 0x02] ++ d) =
        some { layerId := 0x02, keyId := 0x02, keyMap := .consumer { id := 0x0192 } }) :=
  ⟨packKeyMap_unpackKeyMapWithId_roundtrip.1 _
      ⟨by decide, rfl, rfl, rfl, rfl, rfl, Or.inl ⟨rfl, 1, rfl, by decide, rfl⟩⟩,
   packKeyMap_unpackKeyMapWithId_roundtrip.2 _ 0x03 0xfa 0x02 0x02
     (show (0x0192 : Nat) < 0x10000 by decide)⟩

/-! ### Helper lemmas about the read loops -/

/-- One successful receive step of the key-map read loop. -/
theorem readKeypadKeyMapsLoop_cons (layerId n : Nat) (acc : List (Option KeyMap))
    (s : HidState) (b : List Nat) (rest : List (List Nat)) (kwi : KeyMapWithId)
    (hr : s.reads = b :: rest) (hb : ¬ b.length = 0) (hu : unpackKeyMapWithId b = some kwi) :
    readKeypadKeyMapsLoop layerId (n + 1) acc s =
      if kwi.layerId ≠ layerId then .error "Invalid layer response"
      else readKeypadKeyMapsLoop layerId n
        (arraySet acc ((kwi.keyId : Int) - 1) kwi.keyMap) { s with reads := rest } := by
  have hrecv : recvResponse s = .ok (b, { s with reads := rest }) := by
    simp only [recvResponse, hr, if_neg hb]
  simp only [readKeypadKeyMapsLoop, hrecv, hu]

/-- A successfully parsed response buffer is non-empty. -/
theorem unpackKeyMapWithId_ne_nil (b : List Nat) (kwi : KeyMapWithId)
    (hu : unpackKeyMapWithId b = some kwi) : ¬ b.length = 0 := by
  intro h0
  rw [List.length_eq_zero.mp h0] at hu
  exact Option.noConfusion hu

/-- Success of the receive loop: the writes are untouched, exactly `n`
responses are consumed, and each consumed response parsed with the
requested layer id. -/
theorem readKeypadKeyMapsLoop_ok (layerId : Nat) :
    ∀ (n : Nat) (acc : List (Option KeyMap)) (s : HidState) (res : List (Option KeyMap))
      (s' : HidState),
    readKeypadKeyMapsLoop layerId n acc s = .ok (res, s') →
    s'.writes = s.writes ∧ s'.reads = s.reads.drop n ∧
    s.reads.length = n + s'.reads.length ∧
    ∀ j < n, ∃ kwi, unpackKeyMapWithId (s.reads.getD j []) = some kwi ∧
      kwi.layerId = layerId := by
  intro n
  induction n with
  | zero =>
    intro acc s res s' h
    simp only [readKeypadKeyMapsLoop, Except.ok.injEq, Prod.mk.injEq] at h
    obtain ⟨rfl, rfl⟩ := h
    exact ⟨rfl, rfl, by simp, fun j hj => absurd hj (by omega)⟩
  | succ m ih =>
    intro acc s res s' h
    cases hr : s.reads with
    | nil =>
      have hrecv : recvResponse s = .error "No response received." := by
        simp [recvResponse, hr]
      simp only [readKeypadKeyMapsLoop, hrecv] at h
      exact Except.noConfusion h
    | cons b rest =>
      by_cases hb : b.length = 0
      · have hrecv : recvResponse s = .error "No response received." := by
          simp [recvResponse, hr, hb]
        simp only [readKeypadKeyMapsLoop, hrecv] at h
        exact Except.noConfusion h
      · cases hu : unpackKeyMapWithId b with
        | none =>
          have hrecv : recvResponse s = .ok (b, { s with reads := rest }) := by
            simp only [recvResponse, hr, if_neg hb]
          simp only [readKeypadKeyMapsLoop, hrecv, hu] at h
          exact Except.noConfusion h
        | some kwi =>
          rw [readKeypadKeyMapsLoop_cons layerId m acc s b rest kwi hr hb hu] at h
          by_cases hl : kwi.layerId = layerId
          · rw [if_neg (by simp [hl])] at h
            obtain ⟨w1, r1, len1, m1⟩ := ih _ _ res s' h
            have len1r : rest.length = m + s'.reads.length := len1
            have m1r : ∀ j < m, ∃ kwi, unpackKeyMapWithId (rest.getD j []) = some kwi ∧
                kwi.layerId = layerId := m1
            refine ⟨w1, ?_, ?_, ?_⟩
            · rw [r1]
              rfl
            · simp only [List.length_cons]
              omega
            · intro j hj
              cases j with
              | zero =>
                exact ⟨kwi, by simpa using hu, hl⟩
              | succ j2 =>
                have := m1r j2 (by omega)
                simpa using this
          · rw [if_pos (by simpa using hl)] at h
            exact Except.noConfusion h

/-- The receive loop fails when the first layer-id mismatch (position `k`)
is reached: every earlier response parses with the right layer, the
response at `k` parses with a wrong layer. -/
theorem readKeypadKeyMapsLoop_mismatch (layerId : Nat) :
    ∀ (k n : Nat) (acc : List (Option KeyMap)) (s : HidState),
    k < n → k < s.reads.length →
    (∀ j ≤ k, ∃ kwi, unpackKeyMapWithId (s.reads.getD j []) = some kwi) →
    (∀ j < k, ∀ kwi, unpackKeyMapWithId (s.reads.getD j []) = some kwi →
      kwi.layerId = layerId) →
    (∀ kwi, unpackKeyMapWithId (s.reads.getD k []) = some kwi → kwi.layerId ≠ layerId) →
    ∃ e, readKeypadKeyMapsLoop layerId n acc s = .error e := by
  intro k
  induction k with
  | zero =>
    intro n acc s hkn hkr hparse hpre hmis
    obtain ⟨m, rfl⟩ : ∃ m, n = m + 1 := ⟨n - 1, by omega⟩
    cases hr : s.reads with
    | nil => rw [hr] at hkr; simp at hkr
    | cons b rest =>
      obtain ⟨kwi, hu⟩ := hparse 0 (le_refl 0)
      rw [hr] at hu
      simp only [List.getD_cons_zero] at hu
      have hb := unpackKeyMapWithId_ne_nil b kwi hu
      have hne : kwi.layerId ≠ layerId := hmis kwi (by rw [hr]; simpa using hu)
      rw [readKeypadKeyMapsLoop_cons layerId m acc s b rest kwi hr hb hu, if_pos hne]
      exact ⟨_, rfl⟩
  | succ kk ih =>
    intro n acc s hkn hkr hparse hpre hmis
    obtain ⟨m, rfl⟩ : ∃ m, n = m + 1 := ⟨n - 1, by omega⟩
    cases hr : s.reads with
    | nil => rw [hr] at hkr; simp at hkr
    | cons b rest =>
      obtain ⟨kwi, hu⟩ := hparse 0 (by omega)
      rw [hr] at hu
      simp only [List.getD_cons_zero] at hu
      have hb := unpackKeyMapWithId_ne_nil b kwi hu
      have hlay : kwi.layerId = layerId := hpre 0 (by omega) kwi (by rw [hr]; simpa using hu)
      rw [readKeypadKeyMapsLoop_cons layerId m acc s b rest kwi hr hb hu,
        if_neg (by simp [hlay])]
      refine ih m _ { s with reads := rest } (by omega) ?_ ?_ ?_ ?_
      · rw [hr] at hkr
        simpa using hkr
      · intro j hj
        have := hparse (j + 1) (by omega)
        rw [hr] at this
        simpa using this
      · intro j hj kwj hj2
        refine hpre (j + 1) (by omega) kwj ?_
        rw [hr]
        simpa using hj2
      · intro kwj hj2
        refine hmis kwj ?_
        rw [hr]
        simpa using hj2

/-- Success of `readKeypadKeyMaps`: one padded request is written, exactly
`getKeyCount` responses are consumed, each parsing with the requested
layer id. -/
theorem readKeypadKeyMaps_ok (s : HidState) (p : ReadKeypadKeyMapsRequest)
    (res : List (Option KeyMap)) (s' : HidState)
    (h : readKeypadKeyMaps s p = .ok (res, s')) :
    s'.writes = s.writes ++ [padRequest (packReadKeypadKeyMaps p)] ∧
    s'.reads = s.reads.drop (getKeyCount { keys := p.keys, knobs := p.knobs }) ∧
    s.reads.length = getKeyCount { keys := p.keys, knobs := p.knobs } + s'.reads.length ∧
    ∀ j < getKeyCount { keys := p.keys, knobs := p.knobs },
      ∃ kwi, unpackKeyMapWithId (s.reads.getD j []) = some kwi ∧
        kwi.layerId = p.layerId := by
  obtain ⟨w1, r1, len1, m1⟩ :=
    readKeypadKeyMapsLoop_ok p.layerId _ [] (sendRequest s (packReadKeypadKeyMaps p)) res s' h
  exact ⟨w1, r1, len1, m1⟩

/-- Success of the layer loop: one request per remaining layer (with
consecutive layer ids), `getKeyCount` responses consumed per layer, each
response of layer block `jj` parsing with layer id `i + 1 + jj`. -/
theorem readKeypadKeyMapTableLoop_ok (info : KeypadInfo) :
    ∀ (n i : Nat) (acc : List (List (Option KeyMap))) (s : HidState)
      (res : List (List (Option KeyMap))) (s' : HidState),
    readKeypadKeyMapTableLoop info n i acc s = .ok (res, s') →
    s'.writes = s.writes ++ (List.range n).map (fun j =>
      padRequest (packReadKeypadKeyMaps
        { keys := info.keys, knobs := info.knobs, layerId := i + 1 + j })) ∧
    s.reads.length = n * getKeyCount info + s'.reads.length ∧
    res.length = acc.length + n ∧
    ∀ jj < n, ∀ q < getKeyCount info,
      ∃ kwi, unpackKeyMapWithId (s.reads.getD (jj * getKeyCount info + q) []) = some kwi ∧
        kwi.layerId = i + 1 + jj := by
  intro n
  induction n with
  | zero =>
    intro i acc s res s' h
    simp only [readKeypadKeyMapTableLoop, Except.ok.injEq, Prod.mk.injEq] at h
    obtain ⟨rfl, rfl⟩ := h
    exact ⟨by simp, by simp, by simp, fun jj hjj => absurd hjj (by omega)⟩
  | succ m ih =>
    intro i acc s res s' h
    cases hcall : readKeypadKeyMaps s
        { keys := info.keys, knobs := info.knobs, layerId := i + 1 } with
    | error e =>
      simp only [readKeypadKeyMapTableLoop, hcall] at h
      exact Except.noConfusion h
    | ok pr =>
      obtain ⟨list, s₁⟩ := pr
      simp only [readKeypadKeyMapTableLoop, hcall] at h
      obtain ⟨w1, r1, len1, m1⟩ := readKeypadKeyMaps_ok s _ list s₁ hcall
      obtain ⟨w2, len2, rl2, m2⟩ := ih (i + 1) (acc ++ [list]) s₁ res s' h
      have r1x : s₁.reads = s.reads.drop (getKeyCount info) := r1
      have len1x : s.reads.length = getKeyCount info + s₁.reads.length := len1
      have m1x : ∀ j < getKeyCount info,
          ∃ kwi, unpackKeyMapWithId (s.reads.getD j []) = some kwi ∧
            kwi.layerId = i + 1 := m1
      refine ⟨?_, ?_, ?_, ?_⟩
      · rw [w2, w1, List.range_succ_eq_map, List.map_cons, List.map_map,
          List.append_assoc, List.singleton_append]
        have hfun : ((fun j => padRequest (packReadKeypadKeyMaps
              { keys := info.keys, knobs := info.knobs, layerId := i + 1 + j })) ∘
              Nat.succ) =
            (fun j => padRequest (packReadKeypadKeyMaps
              { keys := info.keys, knobs := info.knobs, layerId := i + 1 + 1 + j })) := by
          funext j
          have harg : i + 1 + (j + 1) = i + 1 + 1 + j := by omega
          simp only [Function.comp_apply, Nat.succ_eq_add_one, harg]
        rw [hfun]
      · have : (m + 1) * getKeyCount info = getKeyCount info + m * getKeyCount info := by ring
        omega
      · simp only [rl2, List.length_append, List.length_singleton]
        omega
      · intro jj hjj q hq
        cases jj with
        | zero =>
          obtain ⟨kwi, ha, hb⟩ := m1x q hq
          exact ⟨kwi, by simpa using ha, by omega⟩
        | succ j2 =>
          obtain ⟨kwi, ha, hb⟩ := m2 j2 (by omega) q hq
          have hidx : (j2 + 1) * getKeyCount info + q =
              getKeyCount info + (j2 * getKeyCount info + q) := by ring
          rw [hidx]
          have hgd : s.reads.getD (getKeyCount info + (j2 * getKeyCount info + q)) [] =
              s₁.reads.getD (j2 * getKeyCount info + q) [] := by
            rw [r1x, List.getD_eq_getElem?_getD, List.getD_eq_getElem?_getD,
              List.getElem?_drop]
          rw [hgd]
          exact ⟨kwi, ha, by omega⟩

/-- C3: the layer-table read.  (1) On success, `readKeypadKeyMapTable` over
`L` layers has written exactly one request per layer (the packed
`readKeypadKeyMaps` request for layers `1..L`), consumed exactly
`getKeyCount info` responses per layer (`L * getKeyCount info` in total),
returned a table of `L` layer lists, and every consumed response parsed
with the layer id it was requested under.  (2) A `readKeypadKeyMaps`
exchange whose response stream first mismatches the requested layer id at
position `k` fails with an error.  (3) If any response position of the
table read can only parse with the wrong layer id, the whole table read
returns an error — no partial table. -/
theorem readKeypadKeyMapTable_spec :
    (∀ (s : HidState) (info : KeypadInfo) (layers : Nat)
      (res : List (List (Option KeyMap))) (s' : HidState),
      readKeypadKeyMapTable s info layers = .ok (res, s') →
      s'.writes = s.writes ++ (List.range layers).map (fun j =>
        padRequest (packReadKeypadKeyMaps
          { keys := info.keys, knobs := info.knobs, layerId := j + 1 })) ∧
      s.reads.length = layers * getKeyCount info + s'.reads.length ∧
      res.length = layers ∧
      ∀ jj < layers, ∀ q < getKeyCount info,
        ∃ kwi, unpackKeyMapWithId (s.reads.getD (jj * getKeyCount info + q) []) = some kwi ∧
          kwi.layerId = jj + 1) ∧
    (∀ (s : HidState) (p : ReadKeypadKeyMapsRequest) (k : Nat),
      k < getKeyCount { keys := p.keys, knobs := p.knobs } → k < s.reads.length →
      (∀ j ≤ k, ∃ kwi, unpackKeyMapWithId (s.reads.getD j []) = some kwi) →
      (∀ j < k, ∀ kwi, unpackKeyMapWithId (s.reads.getD j []) = some kwi →
        kwi.layerId = p.layerId) →
      (∀ kwi, unpackKeyMapWithId (s.reads.getD k []) = some kwi →
        kwi.layerId ≠ p.layerId) →
      ∃ e, readKeypadKeyMaps s p = .error e) ∧
    (∀ (s : HidState) (info : KeypadInfo) (layers : Nat),
      (∃ jj, jj < layers ∧ ∃ q, q < getKeyCount info ∧
        ∀ kwi, unpackKeyMapWithId (s.reads.getD (jj * getKeyCount info + q) []) = some kwi →
          kwi.layerId ≠ jj + 1) →
      ∃ e, readKeypadKeyMapTable s info layers = .error e) := by
  refine ⟨?_, ?_, ?_⟩
  · intro s info layers res s' h
    obtain ⟨w, len, rl, mt⟩ := readKeypadKeyMapTableLoop_ok info layers 0 [] s res s' h
    refine ⟨?_, len, by simpa using rl, ?_⟩
    · rw [w]
      have hfun : (fun j => padRequest (packReadKeypadKeyMaps
            { keys := info.keys, knobs := info.knobs, layerId := 0 + 1 + j })) =
          (fun j => padRequest (packReadKeypadKeyMaps
            { keys := info.keys, knobs := info.knobs, layerId := j + 1 })) := by
        funext j
        have : 0 + 1 + j = j + 1 := by omega
        rw [this]
      rw [hfun]
    · intro jj hjj q hq
      obtain ⟨kwi, ha, hb⟩ := mt jj hjj q hq
      exact ⟨kwi, ha, by omega⟩
  · intro s p k hk hkr hparse hpre hmis
    exact readKeypadKeyMapsLoop_mismatch p.layerId k _ []
      (sendRequest s (packReadKeypadKeyMaps p)) hk hkr hparse hpre hmis
  · intro s info layers hmis
    obtain ⟨jj, hjj, q, hq, hbad⟩ := hmis
    cases hres : readKeypadKeyMapTable s info layers with
    | error e => exact ⟨e, rfl⟩
    | ok pr =>
      obtain ⟨res, s'⟩ := pr
      obtain ⟨-, -, -, mt⟩ := readKeypadKeyMapTableLoop_ok info layers 0 [] s res s' hres
      obtain ⟨kwi, ha, hb⟩ := mt jj hjj q hq
      exact absurd (by omega : kwi.layerId = jj + 1) (fun he => hbad kwi ha he)

theorem readKeypadKeyMapTable_spec_witness :
    (HidState.mk
        [padRequest (packReadKeypadKeyMaps { keys := 1, knobs := 0, layerId := 1 }),
         padRequest (packReadKeypadKeyMaps { keys := 1, knobs := 0, layerId := 2 })]
        []).writes =
      (HidState.mk [] demoResponses).writes ++ (List.range 2).map (fun j =>
        padRequest (packReadKeypadKeyMaps
          { keys := KeypadInfo.keys { keys := 1, knobs := 0 },
            knobs := KeypadInfo.knobs { keys := 1, knobs := 0 }, layerId := j + 1 })) ∧
    (HidState.mk [] demoResponses).reads.length =
      2 * getKeyCount { keys := 1, knobs := 0 } +
        (HidState.mk
          [padRequest (packReadKeypadKeyMaps { keys := 1, knobs := 0, layerId := 1 }),
           padRequest (packReadKeypadKeyMaps { keys := 1, knobs := 0, layerId := 2 })]
          []).reads.length ∧
    demoTable.length = 2 ∧
    ∀ jj < 2, ∀ q < getKeyCount { keys := 1, knobs := 0 },
      ∃ kwi, unpackKeyMapWithId ((HidState.mk [] demoResponses).reads.getD
          (jj * getKeyCount { keys := 1, knobs := 0 } + q) []) = some kwi ∧
        kwi.layerId = jj + 1 :=
  readKeypadKeyMapTable_spec.1 (HidState.mk [] demoResponses) { keys := 1, knobs := 0 } 2
    demoTable
    (HidState.mk
      [padRequest (packReadKeypadKeyMaps { keys := 1, knobs := 0, layerId := 1 }),
       padRequest (packReadKeypadKeyMaps { keys := 1, knobs := 0, layerId := 2 })] [])
    rfl

/-! ### Helper lemmas for the keyId-indexed store -/

/-- `getD` after a JS sparse-array assignment: index `i` now holds `v`,
every other index is unchanged (out-of-range reads default to `none`). -/
theorem arraySet_getD (l : List (Option KeyMap)) (i : Int) (v : KeyMap) (k : Nat) :
    (arraySet l i v).getD k none = if i = (k : Int) then some v else l.getD k none := by
  unfold arraySet
  by_cases hi : i < 0
  · rw [if_pos hi, if_neg (by omega : ¬ i = (k : Int))]
  · rw [if_neg hi]
    by_cases ht : i.toNat < l.length
    · rw [if_pos ht, List.getD_eq_getElem?_getD, List.getElem?_set]
      by_cases hik : i = (k : Int)
      · rw [if_pos (by omega : i.toNat = k), if_pos (by omega), if_pos hik]
        rfl
      · rw [if_neg (by omega : ¬ i.toNat = k), if_neg hik, ← List.getD_eq_getElem?_getD]
    · rw [if_neg ht, List.getD_eq_getElem?_getD, List.getElem?_append]
      by_cases hk1 : k < (l ++ List.replicate (i.toNat - l.length) none).length
      · rw [if_pos hk1, List.getElem?_append]
        have hk1' : k < i.toNat := by
          simp only [List.length_append, List.length_replicate] at hk1
          omega
        rw [if_neg (by omega : ¬ i = (k : Int))]
        by_cases hk2 : k < l.length
        · rw [if_pos hk2, ← List.getD_eq_getElem?_getD]
        · rw [if_neg hk2, List.getElem?_replicate, if_pos (by omega)]
          rw [List.getD_eq_getElem?_getD, List.getElem?_eq_none (by omega)]
          rfl
      · rw [if_neg hk1]
        have hlen : (l ++ List.replicate (i.toNat - l.length) none).length = i.toNat := by
          simp only [List.length_append, List.length_replicate]
          omega
        by_cases hk3 : k = i.toNat
        · rw [hlen, if_pos (by omega : i = (k : Int))]
          have : k - i.toNat = 0 := by omega
          rw [this]
          rfl
        · rw [hlen, if_neg (by omega : ¬ i = (k : Int))]
          have h1 : ([some v] : List (Option KeyMap))[k - i.toNat]? = none := by
            apply List.getElem?_eq_none
            simp only [List.length_singleton]
            omega
          rw [h1, List.getD_eq_getElem?_getD, List.getElem?_eq_none (by omega)]

/-- Length after a JS sparse-array assignment. -/
theorem arraySet_length (l : List (Option KeyMap)) (i : Int) (v : KeyMap) :
    (arraySet l i v).length = if i < 0 then l.length else max l.length (i.toNat + 1) := by
  unfold arraySet
  by_cases hi : i < 0
  · rw [if_pos hi, if_pos hi]
  · rw [if_neg hi, if_neg hi]
    by_cases ht : i.toNat < l.length
    · rw [if_pos ht, List.length_set]
      omega
    · rw [if_neg ht]
      simp only [List.length_append, List.length_replicate, List.length_singleton]
      omega

/-- When the images under `f` are distinct, at most one list element maps
to any given value. -/
theorem filter_length_le_one {α : Type} (f : α → Nat) (x : Nat) :
    ∀ (l : List α), (l.map f).Nodup → (l.filter (fun b => f b = x)).length ≤ 1 := by
  intro l
  induction l with
  | nil => intro _; simp
  | cons a t ih =>
    intro h
    simp only [List.map_cons, List.nodup_cons] at h
    obtain ⟨hna, hnt⟩ := h
    by_cases hfa : f a = x
    · rw [List.filter_cons_of_pos (by simpa using hfa)]
      have hnil : t.filter (fun b => decide (f b = x)) = [] := by
        apply List.filter_eq_nil_iff.mpr
        intro c hc
        simp only [decide_eq_true_eq]
        intro hcx
        exact hna (by rw [hfa, ← hcx]; exact List.mem_map_of_mem f hc)
      rw [hnil]
      simp
    · rw [List.filter_cons_of_neg (by simpa using hfa)]
      exact ih hnt

/-- An index whose `getD` is a real value lies inside the list. -/
theorem lt_length_of_getD_ne (l : List (Option KeyMap)) (k : Nat)
    (h : l.getD k none ≠ none) : k < l.length := by
  by_contra hk
  rw [List.getD_eq_getElem?_getD, List.getElem?_eq_none (by omega)] at h
  exact h rfl

/-- Two lists of optional key maps agreeing in length and under `getD`
are equal. -/
theorem list_eq_of_getD (l1 l2 : List (Option KeyMap)) (hlen : l1.length = l2.length)
    (h : ∀ k, l1.getD k none = l2.getD k none) : l1 = l2 := by
  apply List.ext_getElem?
  intro i
  by_cases hi : i < l1.length
  · rw [List.getElem?_eq_getElem hi, List.getElem?_eq_getElem (hlen ▸ hi)]
    have hh := h i
    rw [List.getD_eq_getElem?_getD, List.getD_eq_getElem?_getD,
      List.getElem?_eq_getElem hi, List.getElem?_eq_getElem (hlen ▸ hi)] at hh
    simpa using hh
  · rw [List.getElem?_eq_none (by omega), List.getElem?_eq_none (by omega)]

/-- `keyIdOf` agrees with the parsed packet. -/
theorem keyIdOf_eq (b : List Nat) (kwi : KeyMapWithId)
    (hu : unpackKeyMapWithId b = some kwi) : keyIdOf b = kwi.keyId := by
  simp [keyIdOf, hu]

/-- `keyMapOf` agrees with the parsed packet. -/
theorem keyMapOf_eq (b : List Nat) (kwi : KeyMapWithId)
    (hu : unpackKeyMapWithId b = some kwi) : keyMapOf b = some kwi.keyMap := by
  simp [keyMapOf, hu]

/-- Characterization of the receive loop on a fully parseable, layer-clean
response block: it succeeds, and position `k` of the result holds the
`KeyMap` of the **last** response whose packet-carried `keyId` is `k + 1`
(falling back to the accumulator), independent of arrival order beyond
that; moreover the result grows no further than the largest `keyId`. -/
theorem readKeypadKeyMapsLoop_spec (layerId : Nat) :
    ∀ (rs : List (List Nat)) (acc : List (Option KeyMap)) (w rest : List (List Nat)),
    (∀ b ∈ rs, ∃ kwi, unpackKeyMapWithId b = some kwi ∧ kwi.layerId = layerId) →
    ∃ res, readKeypadKeyMapsLoop layerId rs.length acc ⟨w, rs ++ rest⟩ = .ok (res, ⟨w, rest⟩) ∧
      (∀ k : Nat, res.getD k none =
        (match (rs.filter (fun b => keyIdOf b = k + 1)).getLast? with
          | some b => keyMapOf b
          | none => acc.getD k none)) ∧
      ∀ N, acc.length ≤ N → (∀ b ∈ rs, keyIdOf b ≤ N) → res.length ≤ N := by
  intro rs
  induction rs with
  | nil =>
    intro acc w rest _
    exact ⟨acc, rfl, fun k => rfl, fun N hN _ => hN⟩
  | cons b t ih =>
    intro acc w rest hp
    obtain ⟨kwi, hu, hl⟩ := hp b (List.mem_cons_self b t)
    have hkid := keyIdOf_eq b kwi hu
    have hb := unpackKeyMapWithId_ne_nil b kwi hu
    obtain ⟨res, hres, hchar, hlen⟩ :=
      ih (arraySet acc ((kwi.keyId : Int) - 1) kwi.keyMap) w rest
        (fun c hc => hp c (List.mem_cons_of_mem b hc))
    refine ⟨res, ?_, ?_, ?_⟩
    · rw [show (b :: t).length = t.length + 1 from rfl,
        readKeypadKeyMapsLoop_cons layerId t.length acc ⟨w, (b :: t) ++ rest⟩ b (t ++ rest)
          kwi rfl hb hu, if_neg (by simp [hl])]
      exact hres
    · intro k
      rw [hchar k]
      by_cases hfb : keyIdOf b = k + 1
      · rw [List.filter_cons_of_pos (by simpa using hfb)]
        cases hft : t.filter (fun c => decide (keyIdOf c = k + 1)) with
        | nil =>
          simp only [List.getLast?_singleton]
          rw [arraySet_getD, if_pos (by omega : (kwi.keyId : Int) - 1 = (k : Int)),
            keyMapOf_eq b kwi hu]
          rfl
        | cons c l2 =>
          rw [List.getLast?_cons_cons]
          cases hgl : (c :: l2).getLast? with
          | none => simp at hgl
          | some x => rfl
      · rw [List.filter_cons_of_neg (by simpa using hfb)]
        cases hft : t.filter (fun c => decide (keyIdOf c = k + 1)) with
        | nil =>
          rw [arraySet_getD, if_neg (by omega : ¬ (kwi.keyId : Int) - 1 = (k : Int))]
        | cons c l2 =>
          cases hgl : (c :: l2).getLast? with
          | none => simp at hgl
          | some x => rfl
    · intro N hA hB
      refine hlen N ?_ (fun c hc => hB c (List.mem_cons_of_mem b hc))
      have hbN := hB b (List.mem_cons_self b t)
      rw [arraySet_length]
      by_cases hneg : (kwi.keyId : Int) - 1 < 0
      · rw [if_pos hneg]
        exact hA
      · rw [if_neg hneg]
        omega

/-- C9: `readKeypadKeyMaps` stores each decoded `KeyMap` at index
`keyId - 1` of the returned list, the `keyId` taken from the response
packet itself (offset 2), not from the arrival position: for any
permutation of the same set of responses carrying the requested `layerId`
and keyIds `1..count`, both runs succeed and return the identical list. -/
theorem readKeypadKeyMaps_perm_invariant :
    ∀ (p : ReadKeypadKeyMapsRequest) (w rs1 rs2 rest : List (List Nat)),
    rs1.Perm rs2 →
    rs1.length = getKeyCount { keys := p.keys, knobs := p.knobs } →
    (∀ b ∈ rs1, ∃ kwi, unpackKeyMapWithId b = some kwi ∧ kwi.layerId = p.layerId) →
    (rs1.map keyIdOf).Perm
      ((List.range (getKeyCount { keys := p.keys, knobs := p.knobs })).map (· + 1)) →
    ∃ res s1 s2,
      readKeypadKeyMaps ⟨w, rs1 ++ rest⟩ p = .ok (res, s1) ∧
      readKeypadKeyMaps ⟨w, rs2 ++ rest⟩ p = .ok (res, s2) ∧
      ∀ b ∈ rs1, res.getD (keyIdOf b - 1) none = keyMapOf b := by
  intro p w rs1 rs2 rest hperm hlen hparse hkeys
  have hparse2 : ∀ b ∈ rs2, ∃ kwi, unpackKeyMapWithId b = some kwi ∧ kwi.layerId = p.layerId :=
    fun b hb => hparse b (hperm.mem_iff.mpr hb)
  have hlen2 : rs2.length = getKeyCount { keys := p.keys, knobs := p.knobs } := by
    rw [← hperm.length_eq]
    exact hlen
  have hrun1 : readKeypadKeyMaps ⟨w, rs1 ++ rest⟩ p =
      readKeypadKeyMapsLoop p.layerId rs1.length []
        ⟨w ++ [padRequest (packReadKeypadKeyMaps p)], rs1 ++ rest⟩ := by
    unfold readKeypadKeyMaps
    rw [← hlen]
    rfl
  have hrun2 : readKeypadKeyMaps ⟨w, rs2 ++ rest⟩ p =
      readKeypadKeyMapsLoop p.layerId rs2.length []
        ⟨w ++ [padRequest (packReadKeypadKeyMaps p)], rs2 ++ rest⟩ := by
    unfold readKeypadKeyMaps
    rw [← hlen2]
    rfl
  obtain ⟨res1, hres1, hchar1, hbound1⟩ := readKeypadKeyMapsLoop_spec p.layerId rs1 []
    (w ++ [padRequest (packReadKeypadKeyMaps p)]) rest hparse
  obtain ⟨res2, hres2, hchar2, hbound2⟩ := readKeypadKeyMapsLoop_spec p.layerId rs2 []
    (w ++ [padRequest (packReadKeypadKeyMaps p)]) rest hparse2
  have hnodup : (rs1.map keyIdOf).Nodup := by
    refine hkeys.symm.nodup ?_
    exact (List.nodup_range _).map (fun a b h => by omega)
  have hkmem : ∀ b ∈ rs1, 1 ≤ keyIdOf b ∧
      keyIdOf b ≤ getKeyCount { keys := p.keys, knobs := p.knobs } := by
    intro b hb
    have h1 : keyIdOf b ∈ rs1.map keyIdOf := List.mem_map_of_mem keyIdOf hb
    have h2 := hkeys.mem_iff.mp h1
    obtain ⟨j, hj, hj2⟩ := List.mem_map.mp h2
    have := List.mem_range.mp hj
    omega
  -- the filters agree between the two permutations
  have hfilters : ∀ k : Nat,
      rs1.filter (fun c => decide (keyIdOf c = k + 1)) =
      rs2.filter (fun c => decide (keyIdOf c = k + 1)) := by
    intro k
    have hpf := hperm.filter (fun c => decide (keyIdOf c = k + 1))
    have hle := filter_length_le_one keyIdOf (k + 1) rs1 hnodup
    cases hf1 : rs1.filter (fun c => decide (keyIdOf c = k + 1)) with
    | nil =>
      rw [hf1] at hpf
      exact (List.perm_nil.mp hpf.symm).symm
    | cons c l2 =>
      rw [hf1] at hpf hle
      obtain rfl : l2 = [] := by
        have : l2.length = 0 := by simpa using hle
        exact List.length_eq_zero.mp this
      exact (List.singleton_perm.mp hpf).symm.symm
  -- pointwise description of both results
  have hpoint : ∀ k : Nat, res1.getD k none = res2.getD k none := by
    intro k
    rw [hchar1 k, hchar2 k, hfilters k]
  -- a packet with any keyId `m+1 ≤ count` exists, pinning the lengths
  have hfull : ∀ m : Nat, m < getKeyCount { keys := p.keys, knobs := p.knobs } →
      ∃ b, rs1.filter (fun c => decide (keyIdOf c = m + 1)) = [b] ∧ b ∈ rs1 := by
    intro m hm
    have h1 : m + 1 ∈ (List.range (getKeyCount { keys := p.keys, knobs := p.knobs })).map
        (· + 1) := List.mem_map.mpr ⟨m, List.mem_range.mpr hm, rfl⟩
    have h2 := hkeys.mem_iff.mpr h1
    obtain ⟨b, hb, hbid⟩ := List.mem_map.mp h2
    have hbf : b ∈ rs1.filter (fun c => decide (keyIdOf c = m + 1)) :=
      List.mem_filter.mpr ⟨hb, by simpa using hbid⟩
    have hle := filter_length_le_one keyIdOf (m + 1) rs1 hnodup
    cases hf1 : rs1.filter (fun c => decide (keyIdOf c = m + 1)) with
    | nil => rw [hf1] at hbf; exact absurd hbf (by simp)
    | cons c l2 =>
      rw [hf1] at hbf hle
      obtain rfl : l2 = [] := by
        have : l2.length = 0 := by simpa using hle
        exact List.length_eq_zero.mp this
      obtain rfl : b = c := by simpa using hbf
      exact ⟨b, rfl, hb⟩
  have hlen1le : res1.length ≤ getKeyCount { keys := p.keys, knobs := p.knobs } :=
    hbound1 _ (by simp) (fun b hb => (hkmem b hb).2)
  have hlen2le : res2.length ≤ getKeyCount { keys := p.keys, knobs := p.knobs } := by
    refine hbound2 _ (by simp) (fun b hb => ?_)
    exact (hkmem b (hperm.mem_iff.mpr hb)).2
  have hgetfull : ∀ m : Nat, m < getKeyCount { keys := p.keys, knobs := p.knobs } →
      res1.getD m none ≠ none := by
    intro m hm
    obtain ⟨b, hf, hb⟩ := hfull m hm
    obtain ⟨kwi, hu, -⟩ := hparse b hb
    rw [hchar1 m, hf]
    simp only [List.getLast?_singleton]
    rw [keyMapOf_eq b kwi hu]
    exact Option.noConfusion
  have hlen1ge : getKeyCount { keys := p.keys, knobs := p.knobs } ≤ res1.length := by
    by_cases h0 : getKeyCount { keys := p.keys, knobs := p.knobs } = 0
    · omega
    · have hm : getKeyCount { keys := p.keys, knobs := p.knobs } - 1 <
          getKeyCount { keys := p.keys, knobs := p.knobs } := by omega
      have := lt_length_of_getD_ne res1 _ (hgetfull _ hm)
      omega
  have hlen2ge : getKeyCount { keys := p.keys, knobs := p.knobs } ≤ res2.length := by
    by_cases h0 : getKeyCount { keys := p.keys, knobs := p.knobs } = 0
    · omega
    · have hm : getKeyCount { keys := p.keys, knobs := p.knobs } - 1 <
          getKeyCount { keys := p.keys, knobs := p.knobs } := by omega
      have hne : res2.getD (getKeyCount { keys := p.keys, knobs := p.knobs } - 1) none ≠
          none := by
        rw [← hpoint]
        exact hgetfull _ hm
      have := lt_length_of_getD_ne res2 _ hne
      omega
  have hres12 : res1 = res2 := list_eq_of_getD res1 res2 (by omega) hpoint
  refine ⟨res1, ⟨w ++ [padRequest (packReadKeypadKeyMaps p)], rest⟩,
    ⟨w ++ [padRequest (packReadKeypadKeyMaps p)], rest⟩, ?_, ?_, ?_⟩
  · rw [hrun1]
    exact hres1
  · rw [hrun2, hres2, hres12]
  · intro b hb
    obtain ⟨kwi, hu, -⟩ := hparse b hb
    obtain ⟨h1, -⟩ := hkmem b hb
    have hk1 : keyIdOf b - 1 + 1 = keyIdOf b := by omega
    have hbf : b ∈ rs1.filter (fun c => decide (keyIdOf c = keyIdOf b - 1 + 1)) :=
      List.mem_filter.mpr ⟨hb, by simp [hk1]⟩
    have hle := filter_length_le_one keyIdOf (keyIdOf b - 1 + 1) rs1 hnodup
    cases hf1 : rs1.filter (fun c => decide (keyIdOf c = keyIdOf b - 1 + 1)) with
    | nil => rw [hf1] at hbf; exact absurd hbf (by simp)
    | cons c l2 =>
      rw [hf1] at hbf hle
      obtain rfl : l2 = [] := by
        have : l2.length = 0 := by simpa using hle
        exact List.length_eq_zero.mp this
      obtain rfl : b = c := by simpa using hbf
      rw [hchar1 (keyIdOf b - 1), hf1]
      simp only [List.getLast?_singleton]

theorem readKeypadKeyMaps_perm_invariant_witness :
    ∃ res s1 s2,
      readKeypadKeyMaps
        ⟨[], [[0x03, 0xfa, 0x01, 0x01, 0x01, 0, 0, 0, 0, 0, 0x01, 0x11, 0x21],
              [0x03, 0xfa, 0x02, 0x01, 0x01, 0, 0, 0, 0, 0, 0x01, 0x12, 0x22]]⟩
        { keys := 2, knobs := 0, layerId := 1 } = .ok (res, s1) ∧
      readKeypadKeyMaps
        ⟨[], [[0x03, 0xfa, 0x02, 0x01, 0x01, 0, 0, 0, 0, 0, 0x01, 0x12, 0x22],
              [0x03, 0xfa, 0x01, 0x01, 0x01, 0, 0, 0, 0, 0, 0x01, 0x11, 0x21]]⟩
        { keys := 2, knobs := 0, layerId := 1 } = .ok (res, s2) ∧
      ∀ b ∈ [[0x03, 0xfa, 0x01, 0x01, 0x01, 0, 0, 0, 0, 0, 0x01, 0x11, 0x21],
             [0x03, 0xfa, 0x02, 0x01, 0x01, 0, 0, 0, 0, 0, 0x01, 0x12, 0x22]],
        res.getD (keyIdOf b - 1) none = keyMapOf b :=
  readKeypadKeyMaps_perm_invariant { keys := 2, knobs := 0, layerId := 1 } []
    [[0x03, 0xfa, 0x01, 0x01, 0x01, 0, 0, 0, 0, 0, 0x01, 0x11, 0x21],
     [0x03, 0xfa, 0x02, 0x01, 0x01, 0, 0, 0, 0, 0, 0x01, 0x12, 0x22]]
    [[0x03, 0xfa, 0x02, 0x01, 0x01, 0, 0, 0, 0, 0, 0x01, 0x12, 0x22],
     [0x03, 0xfa, 0x01, 0x01, 0x01, 0, 0, 0, 0, 0, 0x01, 0x11, 0x21]] []
    (List.Perm.swap _ _ [])
    rfl
    (by
      intro b hb
      simp only [List.mem_cons, List.not_mem_nil, or_false] at hb
      rcases hb with rfl | rfl
      · exact ⟨_, rfl, rfl⟩
      · exact ⟨_, rfl, rfl⟩)
    (List.Perm.refl [1, 2])

end KeypadMapper
